import Mathlib

/-!
Shallow embedding of the weg-top-tracker repository
(`src/wegtop/text_utils.py`, `src/wegtop/top_parser.py`,
`src/wegtop/ingest/pipeline.py`) in Lean 4, together with theorems that
settle the claims about the specification.

Strings are modelled as `String` / `List Char`.  Python's `re` patterns used
by the source are transliterated into explicit character-level matchers that
follow the engine's leftmost-match, alternation-order and greedy/lazy
semantics for the concrete patterns appearing in the source (each matcher is
documented with the pattern it embeds).  Python `\w` is modelled as
ASCII alphanumeric or underscore, and `str.lower` as ASCII lowering extended
with the German capitals that occur in the source's keyword lists.
-/

namespace Wegtop

/-- Python `\w` (word character), ASCII fragment: letter, digit or underscore. -/
def isWordChar (c : Char) : Bool :=
  c.isAlphanum || c = '_'

/-- Python `\s` / `str.strip` whitespace (ASCII fragment). -/
def isPySpace (c : Char) : Bool :=
  c = ' ' || c = '\t' || c = '\n' || c = '\r' || c = '\x0b' || c = '\x0c'

/-- Python `str.lower`, restricted to ASCII plus the German capital umlauts
that occur in the source's keyword lists. -/
def lowerChar (c : Char) : Char :=
  if c = 'Ä' then 'ä'
  else if c = 'Ö' then 'ö'
  else if c = 'Ü' then 'ü'
  else c.toLower

/-- Lowercase a character list (Python `str.lower`). -/
def lowerStr (s : List Char) : List Char :=
  s.map lowerChar

/-- Does `s` start with the sequence `pat`? -/
def startsWithSeq : List Char → List Char → Bool
  | _, [] => true
  | [], _ :: _ => false
  | a :: s, b :: t => a = b && startsWithSeq s t

/-- Python substring containment `pat in s`. -/
def containsSeq : List Char → List Char → Bool
  | s, pat =>
    startsWithSeq s pat ||
      match s with
      | [] => false
      | _ :: t => containsSeq t pat

/-- Python `str.strip()`: drop whitespace from both ends. -/
def pyStrip (s : List Char) : List Char :=
  ((s.dropWhile isPySpace).reverse.dropWhile isPySpace).reverse

/-- Split a character list on newline characters, keeping every piece
(including empty ones); used to model line-oriented regex passes. -/
def splitOnNl (s : List Char) : List (List Char) :=
  match s with
  | [] => [[]]
  | '\n' :: t => [] :: splitOnNl t
  | c :: t =>
    match splitOnNl t with
    | [] => [[c]]
    | l :: ls => (c :: l) :: ls

/-- Join pieces with newline characters (inverse of `splitOnNl`). -/
def joinNl : List (List Char) → List Char
  | [] => []
  | [l] => l
  | l :: ls => l ++ '\n' :: joinNl ls

/-- Python `str.splitlines()` for newline-only text: like `splitOnNl` but
without a trailing empty piece when the text ends in a newline, and empty
for the empty string. -/
def splitlines (s : List Char) : List (List Char) :=
  match s with
  | [] => []
  | _ =>
    let ps := splitOnNl s
    if ps.getLast? = some [] then ps.dropLast else ps

/-- Value of a digit character list (little helper for `int(...)`). -/
def digitsToNat (s : List Char) : Nat :=
  s.foldl (fun acc c => 10 * acc + (c.toNat - '0'.toNat)) 0

/-- `text_utils.safe_int`: strip the string, delete `.` and space characters
(thousands separators), then parse as a decimal integer; `None` when the
result is not a plain digit run (Python `int` raising). -/
def safe_int (s : List Char) : Option Nat :=
  let t := (pyStrip s).filter (fun c => !(c = '.' || c = ' '))
  if t ≠ [] && t.all Char.isDigit then some (digitsToNat t) else none

/-- One pass of Python `str.replace` for a two-character pattern `[p, q]`
replaced by the single character `r` (left-to-right, non-overlapping). -/
def replacePair (p q r : Char) : List Char → List Char
  | [] => []
  | [c] => [c]
  | a :: b :: rest =>
    if a = p && b = q then r :: replacePair p q r rest
    else a :: replacePair p q r (b :: rest)

/-- Python `str.replace("\r\n", "\n").replace("\r", "\n")`: unify newlines. -/
def unifyNewlines (s : List Char) : List Char :=
  replacePair '\r' '\n' '\n' s |>.map (fun c => if c = '\r' then '\n' else c)

/-- `re.sub(r"(\w)-\n(\w)", r"\1\2", ·)`: de-hyphenate line-wrapped words.
Matches are found left to right and do not overlap: the trailing word
character of a replaced occurrence is consumed and cannot start a new match. -/
def dehyphenate : List Char → List Char
  | a :: '-' :: '\n' :: b :: rest2 =>
    if isWordChar a && isWordChar b then a :: b :: dehyphenate rest2
    else a :: dehyphenate ('-' :: '\n' :: b :: rest2)
  | a :: rest => a :: dehyphenate rest
  | [] => []

/-- The twelve sequential `str.replace` calls repairing umlaut OCR artifacts
(`a¨` → `ä`, ..., `¨U` → `Ü`), in source order. -/
def fixUmlauts (s : List Char) : List Char :=
  replacePair '¨' 'A' 'Ä' <| replacePair '¨' 'O' 'Ö' <| replacePair '¨' 'U' 'Ü' <|
  replacePair '¨' 'a' 'ä' <| replacePair '¨' 'o' 'ö' <| replacePair '¨' 'u' 'ü' <|
  replacePair 'A' '¨' 'Ä' <| replacePair 'O' '¨' 'Ö' <| replacePair 'U' '¨' 'Ü' <|
  replacePair 'a' '¨' 'ä' <| replacePair 'o' '¨' 'ö' <| replacePair 'u' '¨' 'ü' s

/-- Does this line match `^DSZ_[A-Z].*$` or `^ALTMP_.*\.PDF$`?
(`NOISE_RE` in `text_utils.py`; both matches span the whole line.) -/
def isNoiseLine (l : List Char) : Bool :=
  (startsWithSeq l ['D', 'S', 'Z', '_'] &&
    match l.drop 4 with
    | c :: _ => c.isUpper
    | [] => false) ||
  (startsWithSeq l ['A', 'L', 'T', 'M', 'P', '_'] &&
    startsWithSeq l.reverse ['F', 'D', 'P', '.'] && l.length ≥ 10)

/-- `NOISE_RE.sub("", ·)`: erase the content of noise lines (the newlines
around a removed line remain). -/
def stripNoiseLines (s : List Char) : List Char :=
  joinNl ((splitOnNl s).map (fun l => if isNoiseLine l then [] else l))

/-- `re.sub(r"[ \t]+", " ", ·)`: collapse horizontal whitespace runs to one
space (a space or tab followed by another space or tab is dropped; the last
character of a run becomes a single space). -/
def collapseSpaces : List Char → List Char
  | [] => []
  | [c] => if c = ' ' || c = '\t' then [' '] else [c]
  | c :: d :: rest =>
    if (c = ' ' || c = '\t') && (d = ' ' || d = '\t') then collapseSpaces (d :: rest)
    else if c = ' ' || c = '\t' then ' ' :: collapseSpaces (d :: rest)
    else c :: collapseSpaces (d :: rest)

/-- `re.sub(r"\n{4,}", "\n\n\n", ·)`: cap newline runs at three (four
consecutive newlines lose one, until every maximal run has at most three). -/
def collapseNewlines : List Char → List Char
  | '\n' :: '\n' :: '\n' :: '\n' :: rest => collapseNewlines ('\n' :: '\n' :: '\n' :: rest)
  | c :: rest => c :: collapseNewlines rest
  | [] => []

/-- `text_utils.normalize_text` on character lists.  The source's
`unicodedata.normalize("NFC", ·)` step is the identity on the NFC-stable
texts considered here (no decomposed combining sequences) and is modelled as
such. -/
def normalizeChars (s : List Char) : List Char :=
  pyStrip <| collapseNewlines <| collapseSpaces <| stripNoiseLines <|
    fixUmlauts <| dehyphenate <| unifyNewlines s

/-- `text_utils.normalize_text` (empty input short-circuits to `""`). -/
def normalize_text (s : String) : String :=
  if s = "" then "" else ⟨normalizeChars s.data⟩

/-- Consume the (lowercase) literal `lit` case-insensitively from the front
of `s`, returning the remainder. -/
def dropLitCI : List Char → List Char → Option (List Char)
  | [], s => some s
  | _ :: _, [] => none
  | p :: ps, c :: cs => if lowerChar c = p then dropLitCI ps cs else none

/-- `\s*[:=]?\s*([\d\.]+)` after a vote label: optional whitespace, optional
colon or equals sign, optional whitespace, then a non-empty greedy run of
digits and dots (the captured numeral).  The character classes involved are
pairwise disjoint, so the greedy Python match is deterministic. -/
def matchSepNum (s : List Char) : Option (List Char × List Char) :=
  let s1 := s.dropWhile isPySpace
  let s2 :=
    match s1 with
    | c :: t => if c = ':' || c = '=' then t else s1
    | [] => s1
  let s3 := s2.dropWhile isPySpace
  let num := s3.takeWhile (fun c => c.isDigit || c = '.')
  if num = [] then none else some (num, s3.drop num.length)

/-- Try the label alternatives in the regex engine's preference order; the
first alternative whose label is followed by a `matchSepNum` numeral wins,
yielding the captured numeral and the remainder after it. -/
def matchLabelNum : List (List Char) → List Char → Option (List Char × List Char)
  | [], _ => none
  | alt :: alts, s =>
    match dropLitCI alt s with
    | some r =>
      match matchSepNum r with
      | some p => some p
      | none => matchLabelNum alts s
    | none => matchLabelNum alts s

/-- Leftmost occurrence of a label-plus-numeral segment (models both
`re.search`'s start scan and the lazy `.*?` gaps between the three labeled
groups of `parse_votes_strict`'s first pattern). -/
def searchSeg (alts : List (List Char)) : List Char → Option (List Char × List Char)
  | [] => none
  | c :: t =>
    match matchLabelNum alts (c :: t) with
    | some p => some p
    | none => searchSeg alts t

/-- Alternatives of `(?:Ja(?:-Stimmen)?|Jastimmen)` in preference order. -/
def jaAlts : List (List Char) := ["ja-stimmen".data, "ja".data, "jastimmen".data]

/-- Alternatives of `(?:Nein(?:-Stimmen)?|Neinstimmen)` in preference order. -/
def neinAlts : List (List Char) := ["nein-stimmen".data, "nein".data, "neinstimmen".data]

/-- Alternatives of `(?:Enthaltung(?:en)?|Enthaltungen?)` in preference order. -/
def enthAlts : List (List Char) :=
  ["enthaltungen".data, "enthaltung".data, "enthaltungen".data, "enthaltunge".data]

/-- The labeled vote form of `parse_votes_strict`: the big `(?is)` search
`Ja... ([\d\.]+) .*? Nein... ([\d\.]+) .*? Enthaltung... ([\d\.]+)`.
Later groups are searched in the remainder left by earlier ones; a failed
later group cannot be rescued by a later earlier-group match, because any
match inside a shorter suffix also occurs in every longer suffix. -/
def votesLabeled (b : List Char) : Option (Option Nat × Option Nat × Option Nat) :=
  match searchSeg jaAlts b with
  | none => none
  | some (c1, r1) =>
    match searchSeg neinAlts r1 with
    | none => none
    | some (c2, r2) =>
      match searchSeg enthAlts r2 with
      | none => none
      | some (c3, _) => some (safe_int c1, safe_int c2, safe_int c3)

/-- The keywords of the vote-context guard `\b(stimmen|ja|nein|enth)\b`. -/
def voteKws : List (List Char) := ["stimmen".data, "ja".data, "nein".data, "enth".data]

/-- Python word boundary `\b` between an optional left and right character
(string edges count as non-word). -/
def bdy (l r : Option Char) : Bool :=
  (match l with | some c => isWordChar c | none => false) !=
    (match r with | some c => isWordChar c | none => false)

/-- Does the keyword `kw` match at the current position (previous character
`prev`) with word boundaries on both sides, case-insensitively? -/
def kwAt (prev : Option Char) (s : List Char) (kw : List Char) : Bool :=
  (match prev with | some p => !isWordChar p | none => true) &&
  startsWithSeq (lowerStr s) kw &&
  (match s.drop kw.length with | c :: _ => !isWordChar c | [] => true)

/-- `re.search(r"(?i)\b(stimmen|ja|nein|enth)\b", line)` as a Boolean. -/
def hasVoteKw (prev : Option Char) : List Char → Bool
  | [] => voteKws.any (kwAt prev [])
  | c :: t => voteKws.any (kwAt prev (c :: t)) || hasVoteKw (some c) t

/-- The `[\d\.]` character class of the unlabeled triple pattern. -/
def isNumCls (c : Char) : Bool := c.isDigit || c = '.'

/-- Backtracking for the final `([\d\.]{1,10})\b`: shrink the greedy capture
from `k` characters down until the trailing word boundary holds.  `run` is
the maximal class run, `rest` what follows it. -/
def pickLastCap (run rest : List Char) : Nat → Option (List Char)
  | 0 => none
  | k + 1 =>
    let cap := run.take (k + 1)
    let nxt := match run.drop (k + 1) with
      | c :: _ => some c
      | [] => rest.head?
    if bdy cap.getLast? nxt then some cap else pickLastCap run rest k

/-- Match `\b([\d\.]{1,10})\s*/\s*([\d\.]{1,10})\s*/\s*([\d\.]{1,10})\b` at
the current position (previous character `prev`).  For the first two
captures the follow-set (`\s*` then `/`) is disjoint from the class, so the
greedy `{1,10}` either takes the whole class run (when it is at most ten
characters long) or fails. -/
def matchTripleAt (prev : Option Char) (s : List Char) :
    Option (List Char × List Char × List Char) :=
  let run1 := s.takeWhile isNumCls
  if run1 = [] || run1.length > 10 || !bdy prev run1.head? then none
  else
    let t1 := (s.drop run1.length).dropWhile isPySpace
    match t1 with
    | '/' :: t2 =>
      let t3 := t2.dropWhile isPySpace
      let run2 := t3.takeWhile isNumCls
      if run2 = [] || run2.length > 10 then none
      else
        let t4 := (t3.drop run2.length).dropWhile isPySpace
        match t4 with
        | '/' :: t5 =>
          let t6 := t5.dropWhile isPySpace
          let run3 := t6.takeWhile isNumCls
          let rest3 := t6.drop run3.length
          match pickLastCap run3 rest3 (min 10 run3.length) with
          | some cap => some (run1, run2, cap)
          | none => none
        | _ => none
    | _ => none

/-- Leftmost unlabeled `num/num/num` match on a line (`re.search`). -/
def scanTriple (prev : Option Char) : List Char → Option (List Char × List Char × List Char)
  | [] => matchTripleAt prev []
  | c :: t =>
    match matchTripleAt prev (c :: t) with
    | some r => some r
    | none => scanTriple (some c) t

/-- The per-line loop of `parse_votes_strict`: an unlabeled triple is
accepted only from a line containing a slash and a vote-context keyword. -/
def votesUnlabeled : List (List Char) → Option Nat × Option Nat × Option Nat
  | [] => (none, none, none)
  | ln :: rest =>
    if ln.any (fun c => c = '/') && hasVoteKw none ln then
      match scanTriple none ln with
      | some (c1, c2, c3) => (safe_int c1, safe_int c2, safe_int c3)
      | none => votesUnlabeled rest
    else votesUnlabeled rest

/-- `top_parser.parse_votes_strict`. -/
def parse_votes_strict (block : String) : Option Nat × Option Nat × Option Nat :=
  match votesLabeled block.data with
  | some t => t
  | none => votesUnlabeled (splitlines block.data)

/-- Python substring test `key in block.lower()`. -/
def containsLower (b : List Char) (key : String) : Bool :=
  containsSeq (lowerStr b) key.data

/-- The rejection cues of `detect_explicit_decision`, in source order. -/
def rejectionCues : List String :=
  ["abgelehnt", "nicht angenommen", "nicht beschlossen", "kein beschluss",
   "zurückgestellt", "vertagt", "ohne beschluss", "keine beschlussfassung",
   "keine beschluss", "beschlussfassung entfällt"]

/-- The approval cues of `detect_explicit_decision`, in source order. -/
def approvalCues : List String :=
  ["wird angenommen", "angenommen", "beschließt", "wird beschlossen",
   "mehrheitlich beschlossen", "beschluss gefasst"]

/-- `top_parser.detect_explicit_decision`: rejection cues first, then
approval cues, on the lowercased block. -/
def detect_explicit_decision (block : String) : Option Bool :=
  if rejectionCues.any (containsLower block.data) then some false
  else if approvalCues.any (containsLower block.data) then some true
  else none

/-- The special-quorum cues of `mentions_special_quorum`. -/
def quorumCues : List String :=
  ["einstimmigkeit", "quorum", "2/3", "zwei drittel", "3/4", "drei viertel",
   "qualifizierte mehrheit"]

/-- `top_parser.mentions_special_quorum`. -/
def mentions_special_quorum (block : String) : Bool :=
  quorumCues.any (containsLower block.data)

/-- `top_parser.infer_approved`. -/
def infer_approved (explicit : Option Bool) (yes no : Option Nat) (block : String) :
    Option Bool :=
  match explicit with
  | some v => some v
  | none =>
    if mentions_special_quorum block then none
    else
      match yes, no with
      | some y, some n => some (decide (y > n))
      | _, _ => none

/-- Block kinds of `classify_block_kind`. -/
inductive BlockKind where
  | detail
  | agenda_or_header
deriving DecidableEq, Repr

/-- `top_parser.classify_block_kind`. -/
def classify_block_kind (text : String) (length : Nat) : BlockKind :=
  let v := parse_votes_strict text
  let explicit := detect_explicit_decision text
  if (v.1.isSome && v.2.1.isSome) || explicit.isSome || length ≥ 500 ||
      containsLower text.data "verkündet das beschlussergebnis" then
    BlockKind.detail
  else BlockKind.agenda_or_header

/-- `GARBAGE_TITLE_TOKENS` from `top_parser.py`, in source order. -/
def garbageTokens : List String :=
  ["gez.", "seite ", "dsz_", "versammlungsleiter", "wohnungseigentümer",
   "verwaltungsbeiratsvorsitzender", "p60||", "clwti", "bmp", "altmp",
   "<<<page", "protokollabschrift der"]

/-- `top_parser.is_garbage_title` (absent and empty titles are garbage). -/
def is_garbage_title : Option String → Bool
  | none => true
  | some title =>
    if title = "" then true
    else
      let t := lowerStr (pyStrip title.data)
      if t = [] then true
      else garbageTokens.any (fun tok => containsSeq t tok.data)

/-- `re.match(r"^(\d+)", s)`: the value of the maximal leading digit run. -/
def leadingNat (s : String) : Option Nat :=
  match s.data.takeWhile Char.isDigit with
  | [] => none
  | run => some (digitsToNat run)

/-- `re.fullmatch(r"\d{2,3}", s)`: two or three bare digits. -/
def isBare23 (s : List Char) : Bool :=
  s.all Char.isDigit && 2 ≤ s.length && s.length ≤ 3

/-- The split form `f"{base}.{sub}"` of a run-together number `t`
(`base = int(t[:-1])`, `sub = t[-1]`). -/
def candidateOf (t : List Char) : String :=
  ⟨(toString (digitsToNat t.dropLast)).data ++
    '.' :: (match t.getLast? with | some c => [c] | none => [])⟩

/-- Leading-digit values (`majors`) of the document's item numbers. -/
def majorsOf (tops : List String) : List Nat :=
  tops.filterMap leadingNat

/-- Largest leading-digit value different from `n` (`max(other_majors)`;
`none` when no other value exists). -/
def maxOther (majors : List Nat) (n : Nat) : Option Nat :=
  (majors.filter (fun m => m ≠ n)).foldl
    (fun acc m => match acc with | none => some m | some a => some (max a m)) none

/-- Does a block at index distance one from `i` carry leading value `base`?
(The adjacency requirement of the repair heuristic; the loop over all `j`
with `j ≠ i` and `abs(j - i) <= 1` reduces to `i - 1` and `i + 1`.) -/
def baseNearby (tops : List String) (i base : Nat) : Bool :=
  (decide (1 ≤ i) && decide (leadingNat (tops.getD (i - 1) "") = some base)) ||
  (decide (i + 1 < tops.length) && decide (leadingNat (tops.getD (i + 1) "") = some base))

/-- All conditions under which `repair_run_together_subtops` rewrites the
item number at index `i`, evaluated over the original, unmodified number
list. -/
def repairQualifies (tops : List String) (i : Nat) : Bool :=
  let t := (tops.getD i "").data
  let n := digitsToNat t
  let base := digitsToNat t.dropLast
  isBare23 t && decide (20 ≤ n) &&
  !(tops.contains (candidateOf t)) &&
  (majorsOf tops).contains base &&
  baseNearby tops i base &&
  (match maxOther (majorsOf tops) n with
   | some mx => decide (n ≥ mx + 2)
   | none => false)

/-- `top_parser.repair_run_together_subtops` on the list of item numbers:
the `old → new` rewrites, computed from the original number list before any
rewrite is applied. -/
def repair_run_together_subtops (tops : List String) : List (String × String) :=
  (List.range tops.length).filterMap fun i =>
    if repairQualifies tops i then
      some (tops.getD i "", candidateOf (tops.getD i "").data)
    else none

/-- `rewrites.get(x, x)`. -/
def applyRewrite (rw : List (String × String)) (x : String) : String :=
  match rw.lookup x with
  | some y => y
  | none => x

/-- A segmented text block (`split_top_blocks` output dict), restricted to
the fields the downstream pipeline reads. -/
structure Block where
  top_number : String
  text : String
  len : Nat
  page_start : Option Nat
  page_end : Option Nat
deriving DecidableEq, Repr

/-- Deduplication score tuple
`(kind == "detail", both tallies, explicit decision, length)`. -/
abbrev Score := Nat × Nat × Nat × Nat

/-- Python tuple `>` on score tuples (left-to-right lexicographic). -/
def scoreGt : Score → Score → Bool :=
  fun (a1, b1, c1, d1) (a2, b2, c2, d2) =>
    if a1 ≠ a2 then decide (a1 > a2)
    else if b1 ≠ b2 then decide (b1 > b2)
    else if c1 ≠ c2 then decide (c1 > c2)
    else decide (d1 > d2)

/-- The score computed for a block in the deduplication loop. -/
def blockScore (b : Block) : Score :=
  let v := parse_votes_strict b.text
  let explicit := detect_explicit_decision b.text
  ((if classify_block_kind b.text b.len = BlockKind.detail then 1 else 0),
   (if v.1.isSome && v.2.1.isSome then 1 else 0),
   (if explicit.isSome then 1 else 0),
   b.len)

/-- One `best` entry: item number, its score, and the retained block. -/
abbrev BestEntry := String × Score × Block

/-- One step of the deduplication loop: dict assignment
`best[top_number] = {...}` guarded by
`top_number not in best or score > best[top_number]["score"]`,
preserving insertion order of keys. -/
def updateBest : List BestEntry → BestEntry → List BestEntry
  | [], e => [e]
  | (k, s, b) :: rest, (k2, s2, b2) =>
    if k = k2 then
      if scoreGt s2 s then (k, s2, b2) :: rest else (k, s, b) :: rest
    else (k, s, b) :: updateBest rest (k2, s2, b2)

/-- The deduplication loop over all blocks. -/
def bestFold (blocks : List Block) : List BestEntry :=
  blocks.foldl (fun acc b => updateBest acc (b.top_number, blockScore b, b)) []

/-- `dict.setdefault`: insert only when the key is absent. -/
def setdefault (m : List (String × String)) (k v : String) : List (String × String) :=
  match m.lookup k with
  | some _ => m
  | none => m ++ [(k, v)]

/-- The agenda-title map: first non-garbage title per item number among
blocks classified `agenda_or_header`.  The title extractor is a parameter
(`extract_title` of the source); every claim below holds for an arbitrary
extractor. -/
def agendaTitles (extractTitle : String → Option String) (blocks : List Block) :
    List (String × String) :=
  blocks.foldl
    (fun m b =>
      if classify_block_kind b.text b.len = BlockKind.agenda_or_header then
        match extractTitle b.text with
        | some t =>
          if t ≠ "" && !is_garbage_title (some t) then setdefault m b.top_number t else m
        | none => m
      else m)
    []

/-- Python `x or y` on optional strings (`None` and `""` are falsy). -/
def pyOr (a b : Option String) : Option String :=
  match a with
  | some s => if s = "" then b else some s
  | none => b

/-- The title fallback of `parse_tops_from_corpus`:
`title = agenda_titles.get(top_no) or title` when garbage, then
`title = agenda_titles.get(top_no) or None` when still garbage. -/
def resolveTitle (ag : List (String × String)) (k : String) (t0 : Option String) :
    Option String :=
  let t1 := if is_garbage_title t0 then pyOr (ag.lookup k) t0 else t0
  if is_garbage_title t1 then pyOr (ag.lookup k) none else t1

/-- `top_parser.ParsedTOP`. -/
structure ParsedTOP where
  meeting_date : Option String
  source_file : String
  top_number : String
  top_title : Option String
  title_issues : List String
  approved : Option Bool
  explicit_decision : Option Bool
  votes_yes : Option Nat
  votes_no : Option Nat
  votes_abstain : Option Nat
  page_start : Option Nat
  page_end : Option Nat
  block_len : Nat
  raw_excerpt : String
deriving DecidableEq, Repr

/-- Build the output record for one `best` entry (`top_parser.py`, lines
326–355).  `titleIssues` stands for `detect_title_orthography_issues`. -/
def mkParsedTOP (extractTitle : String → Option String)
    (titleIssues : String → List String)
    (meeting_date : Option String) (source_file : String)
    (ag : List (String × String)) (k : String) (b : Block) : ParsedTOP :=
  let v := parse_votes_strict b.text
  let explicit := detect_explicit_decision b.text
  let approved := infer_approved explicit v.1 v.2.1 b.text
  let title := resolveTitle ag k (extractTitle b.text)
  { meeting_date := meeting_date, source_file := source_file, top_number := k,
    top_title := title, title_issues := titleIssues (title.getD ""),
    approved := approved, explicit_decision := explicit,
    votes_yes := v.1, votes_no := v.2.1, votes_abstain := v.2.2,
    page_start := b.page_start, page_end := b.page_end,
    block_len := b.len, raw_excerpt := ⟨b.text.data.take 2000⟩ }

/-- `top_parser.sort_key_top`: `(leading integer, remainder)`.  The source's
`re.match(r"(\d+)(.*)")` always succeeds on numbers produced by the header
regex; the `none` fallback is unreachable in the source flow. -/
def sort_key_top (x : String) : Nat × String :=
  match leadingNat x with
  | some n => (n, ⟨x.data.dropWhile Char.isDigit⟩)
  | none => (0, x)

/-- Strict comparison of output sort keys
`(meeting_date or "9999-99-99", sort_key_top(top_number))` (Python tuple
`<`, stable ascending sort). -/
def keyLt (a b : ParsedTOP) : Bool :=
  let d1 := a.meeting_date.getD "9999-99-99"
  let d2 := b.meeting_date.getD "9999-99-99"
  let (n1, s1) := sort_key_top a.top_number
  let (n2, s2) := sort_key_top b.top_number
  if d1 ≠ d2 then compare d1 d2 == Ordering.lt
  else if n1 ≠ n2 then decide (n1 < n2)
  else compare s1 s2 == Ordering.lt

/-- `parse_tops_from_corpus` from the point where the text has been
segmented into blocks (`top_parser.py`, lines 296–358): number repair,
agenda-title collection, deduplication, record construction, ordering.
The title extractor and the orthography detector enter as parameters
(`extract_title` and `detect_title_orthography_issues` of the source); every
claim below holds for arbitrary instantiations.  First stage: apply the
run-together number rewrites, computed from the original number list. -/
def rewrittenBlocks (blocks : List Block) : List Block :=
  let rw := repair_run_together_subtops (blocks.map Block.top_number)
  blocks.map fun b => { b with top_number := applyRewrite rw b.top_number }

/-- `parse_tops_from_corpus` from the point where the text has been
segmented into blocks, continued: agenda-title collection, deduplication,
record construction, ordering. -/
def parse_tops_from_blocks (extractTitle : String → Option String)
    (titleIssues : String → List String)
    (meeting_date : Option String) (source_file : String)
    (blocks : List Block) : List ParsedTOP :=
  let blocks2 := rewrittenBlocks blocks
  let ag := agendaTitles extractTitle blocks2
  let out := (bestFold blocks2).map fun e =>
    mkParsedTOP extractTitle titleIssues meeting_date source_file ag e.1 e.2.2
  List.insertionSort (fun a b => keyLt a b = true) out

/-- `(\d{1,2})\.(\d{1,2})\.(\d{4})\b` at the current position.  The one and
two digit groups are followed by a literal dot, so their greedy match is the
whole digit run (which must have length at most two); the four-digit year is
followed by a word boundary. -/
def matchDMY (s : List Char) : Option (Nat × Nat × Nat) :=
  let run1 := s.takeWhile Char.isDigit
  if run1 = [] || run1.length > 2 then none
  else
    match s.drop run1.length with
    | '.' :: t1 =>
      let run2 := t1.takeWhile Char.isDigit
      if run2 = [] || run2.length > 2 then none
      else
        match t1.drop run2.length with
        | '.' :: t2 =>
          let run3 := t2.takeWhile Char.isDigit
          if run3.length ≠ 4 then none
          else
            match t2.drop 4 with
            | c :: _ =>
              if isWordChar c then none
              else some (digitsToNat run1, digitsToNat run2, digitsToNat run3)
            | [] => some (digitsToNat run1, digitsToNat run2, digitsToNat run3)
        | _ => none
    | _ => none

/-- `(?i)\b(?:vom|am)\s+` then `matchDMY`, at one position.  `vom` and `am`
start with different letters, so the alternation is deterministic. -/
def bodyDateAt (prev : Option Char) (s : List Char) : Option (Nat × Nat × Nat) :=
  if (match prev with | some p => isWordChar p | none => false) then none
  else
    let afterKw : List Char → Option (Nat × Nat × Nat) := fun r =>
      match r with
      | c :: t => if isPySpace c then matchDMY (t.dropWhile isPySpace) else none
      | [] => none
    match dropLitCI "vom".data s with
    | some r => afterKw r
    | none =>
      match dropLitCI "am".data s with
      | some r => afterKw r
      | none => none

/-- `re.search` for the body-text date pattern. -/
def bodyDate (prev : Option Char) : List Char → Option (Nat × Nat × Nat)
  | [] => none
  | c :: t =>
    match bodyDateAt prev (c :: t) with
    | some r => some r
    | none => bodyDate (some c) t

/-- `\b([0-3]\d)(0[1-9]|1[0-2])(20\d{2})\b` at one position. -/
def fnameDateAt (prev : Option Char) (s : List Char) : Option (Nat × Nat × Nat) :=
  match s with
  | d1 :: d2 :: m1 :: m2 :: y1 :: y2 :: y3 :: y4 :: rest =>
    if (match prev with | some p => isWordChar p | none => false) then none
    else if ('0' ≤ d1 && d1 ≤ '3') && d2.isDigit &&
        ((m1 = '0' && '1' ≤ m2 && m2 ≤ '9') || (m1 = '1' && '0' ≤ m2 && m2 ≤ '2')) &&
        y1 = '2' && y2 = '0' && y3.isDigit && y4.isDigit &&
        (match rest with | c :: _ => !isWordChar c | [] => true) then
      some (digitsToNat [d1, d2], digitsToNat [m1, m2], digitsToNat [y1, y2, y3, y4])
    else none
  | _ => none

/-- `re.search` for the filename date pattern. -/
def fnameDate (prev : Option Char) : List Char → Option (Nat × Nat × Nat)
  | [] => none
  | c :: t =>
    match fnameDateAt prev (c :: t) with
    | some r => some r
    | none => fnameDate (some c) t

/-- `f"{n:02d}"` for the day and month fields. -/
def pad2 (n : Nat) : String :=
  if n < 10 then "0" ++ toString n else toString n

/-- `f"{n:04d}"` for the year field. -/
def pad4 (n : Nat) : String :=
  if n < 10 then "000" ++ toString n
  else if n < 100 then "00" ++ toString n
  else if n < 1000 then "0" ++ toString n
  else toString n

/-- `top_parser.extract_meeting_date`. -/
def extract_meeting_date (full_text filename : String) : Option String :=
  match bodyDate none full_text.data with
  | some (d, mo, y) => some (pad4 y ++ "-" ++ pad2 mo ++ "-" ++ pad2 d)
  | none =>
    match fnameDate none filename.data with
    | some (d, mo, y) => some (pad4 y ++ "-" ++ pad2 mo ++ "-" ++ pad2 d)
    | none => none

/-- `models.PageText` (only the fields the pipeline reads). -/
structure PageText where
  page_index : Nat
  text : String
  char_count : Nat
deriving DecidableEq, Repr

/-- `_avg_chars`: mean `char_count` per page, `0` for no pages.  Python
float arithmetic is modelled by exact rationals. -/
def avgChars (pages : List PageText) : ℚ :=
  if pages = [] then 0
  else ((pages.map PageText.char_count).sum : ℚ) / (pages.length : ℚ)

/-- `models.IngestedPDF`. -/
structure IngestedPDF where
  source_path : String
  pages : List PageText
  used_layout : Bool
  used_ocr : Bool
  avg_chars_per_page : ℚ
deriving DecidableEq, Repr

/-- The layout stage of `IngestPipeline.ingest`: when a layout extractor is
configured and the primary yield is below threshold, switch to the layout
pages exactly when their yield strictly exceeds the primary yield times the
layout gain ratio. -/
def afterLayout (primary : List PageText) (layoutRes : Option (List PageText))
    (minAvg layoutGain : ℚ) : List PageText × Bool :=
  match layoutRes with
  | some pl =>
    if avgChars primary < minAvg ∧ avgChars pl > avgChars primary * layoutGain then (pl, true)
    else (primary, false)
  | none => (primary, false)

/-- `IngestPipeline.ingest`.  The extractors are external capabilities, so
their results enter as data: `layoutRes` is the layout extraction when a
layout extractor is configured, and `ocrRes` is the outcome of the OCR
invocation when an OCR extractor is configured — `Except.error` models the
`except Exception` branch that swallows the failure and keeps the non-OCR
pages. -/
def ingest (source_path : String) (primary : List PageText)
    (layoutRes : Option (List PageText)) (ocrRes : Option (Except String (List PageText)))
    (minAvg layoutGain ocrGain ocrMin : ℚ) : IngestedPDF :=
  let s1 := afterLayout primary layoutRes minAvg layoutGain
  let s2 :=
    match ocrRes with
    | some r =>
      if avgChars s1.1 < minAvg then
        match r with
        | Except.ok po =>
          if avgChars po > avgChars s1.1 * ocrGain ∧ avgChars po > ocrMin then (po, true)
          else (s1.1, false)
        | Except.error _ => (s1.1, false)
      else (s1.1, false)
    | none => (s1.1, false)
  { source_path := source_path, pages := s2.1, used_layout := s1.2,
    used_ocr := s2.2, avg_chars_per_page := avgChars s2.1 }

/-! ## Helper lemmas -/

theorem votesUnlabeled_of_no_guard (lns : List (List Char))
    (h : ∀ ln ∈ lns, (ln.any (fun c => c = '/') && hasVoteKw none ln) = false) :
    votesUnlabeled lns = (none, none, none) := by
  induction lns with
  | nil => rfl
  | cons ln rest ih =>
    have hln := h ln (List.mem_cons_self ln rest)
    simp only [votesUnlabeled, hln, Bool.false_eq_true, if_false]
    exact ih fun l hl => h l (List.mem_cons_of_mem ln hl)

theorem digitsToNat_pair (a b : Char) :
    digitsToNat [a, b] = 10 * (a.toNat - '0'.toNat) + (b.toNat - '0'.toNat) := by
  simp [digitsToNat, List.foldl]

theorem digitsToNat_quad (a b c d : Char) :
    digitsToNat [a, b, c, d] =
      1000 * (a.toNat - '0'.toNat) + 100 * (b.toNat - '0'.toNat) +
        10 * (c.toNat - '0'.toNat) + (d.toNat - '0'.toNat) := by
  simp [digitsToNat, List.foldl]
  ring

theorem isDigit_toNat {c : Char} (h : c.isDigit = true) :
    48 ≤ c.toNat ∧ c.toNat ≤ 57 := by
  simp [Char.isDigit] at h
  exact h

theorem fnameDateAt_bounds (prev : Option Char) (s : List Char) (d mo y : Nat)
    (h : fnameDateAt prev s = some (d, mo, y)) :
    d ≤ 39 ∧ 1 ≤ mo ∧ mo ≤ 12 ∧ 2000 ≤ y ∧ y ≤ 2099 := by
  rcases s with _ | ⟨d1, _ | ⟨d2, _ | ⟨m1, _ | ⟨m2, _ | ⟨y1, _ | ⟨y2, _ | ⟨y3, _ | ⟨y4, rest⟩⟩⟩⟩⟩⟩⟩⟩
  any_goals exact Option.noConfusion h
  simp only [fnameDateAt] at h
  split at h
  · exact Option.noConfusion h
  · split at h
    · rename_i hc
      simp only [Option.some.injEq, Prod.mk.injEq] at h
      obtain ⟨hd, hmo, hy⟩ := h
      simp only [Bool.and_eq_true, Bool.or_eq_true, decide_eq_true_eq] at hc
      obtain ⟨⟨⟨⟨⟨⟨⟨⟨hd1, hd1b⟩, hd2⟩, hm⟩, hy1⟩, hy2⟩, hy3⟩, hy4⟩, _⟩ := hc
      have hd1a : 48 ≤ d1.toNat := hd1
      have hd1c : d1.toNat ≤ 51 := hd1b
      have hd2a := isDigit_toNat hd2
      have hy3a := isDigit_toNat hy3
      have hy4a := isDigit_toNat hy4
      subst hd hmo hy hy1 hy2
      rw [digitsToNat_pair, digitsToNat_pair, digitsToNat_quad]
      have h0 : '0'.toNat = 48 := rfl
      have h1 : '1'.toNat = 49 := rfl
      have h2 : '2'.toNat = 50 := rfl
      rcases hm with ⟨⟨hm1, hm2⟩, hm3⟩ | ⟨⟨hm1, hm2⟩, hm3⟩
      · subst hm1
        have hm2a : 49 ≤ m2.toNat := hm2
        have hm3a : m2.toNat ≤ 57 := hm3
        simp only [h0, h1, h2]
        omega
      · subst hm1
        have hm2a : 48 ≤ m2.toNat := hm2
        have hm3a : m2.toNat ≤ 50 := hm3
        simp only [h0, h1, h2]
        omega
    · exact Option.noConfusion h

theorem fnameDate_bounds (prev : Option Char) (s : List Char) (d mo y : Nat)
    (h : fnameDate prev s = some (d, mo, y)) :
    d ≤ 39 ∧ 1 ≤ mo ∧ mo ≤ 12 ∧ 2000 ≤ y ∧ y ≤ 2099 := by
  induction s generalizing prev with
  | nil => exact absurd h (by simp [fnameDate])
  | cons c t ih =>
    rw [fnameDate] at h
    split at h
    · rename_i r heq
      cases h
      exact fnameDateAt_bounds prev (c :: t) d mo y heq
    · exact ih (some c) h

theorem scoreGt_iff (a b : Score) :
    scoreGt a b = true ↔
      (b.1 < a.1 ∨ (a.1 = b.1 ∧ (b.2.1 < a.2.1 ∨ (a.2.1 = b.2.1 ∧
        (b.2.2.1 < a.2.2.1 ∨ (a.2.2.1 = b.2.2.1 ∧ b.2.2.2 < a.2.2.2)))))) := by
  rcases a with ⟨a1, a2, a3, a4⟩
  rcases b with ⟨b1, b2, b3, b4⟩
  simp only [scoreGt]
  split_ifs <;> simp only [decide_eq_true_eq] <;> omega

theorem scoreGt_irrefl (s : Score) : scoreGt s s = false := by
  rcases hs : scoreGt s s with _ | _
  · rfl
  · rw [scoreGt_iff] at hs
    omega

theorem scoreGt_trans {a b c : Score} (h1 : scoreGt a b = true) (h2 : scoreGt b c = true) :
    scoreGt a c = true := by
  rw [scoreGt_iff] at h1 h2 ⊢
  omega

/-- Keys of the `best` association list. -/
def bestKeys (l : List BestEntry) : List String :=
  l.map fun e => e.1

theorem bestKeys_updateBest (acc : List BestEntry) (e : BestEntry) :
    bestKeys (updateBest acc e) =
      if e.1 ∈ bestKeys acc then bestKeys acc else bestKeys acc ++ [e.1] := by
  rcases e with ⟨k2, s2, b2⟩
  induction acc with
  | nil => simp [updateBest, bestKeys]
  | cons hd rest ih =>
    rcases hd with ⟨k, s, b⟩
    by_cases hk : k = k2
    · subst hk
      by_cases hgt : scoreGt s2 s = true <;>
        simp [updateBest, bestKeys, hgt, List.mem_cons]
    · simp only [updateBest, if_neg hk]
      by_cases hmem : k2 ∈ bestKeys rest <;>
        simp_all [bestKeys, List.mem_cons, Ne.symm hk]

theorem mem_bestKeys_updateBest (acc : List BestEntry) (e : BestEntry) (k : String) :
    k ∈ bestKeys (updateBest acc e) ↔ k ∈ bestKeys acc ∨ k = e.1 := by
  rw [bestKeys_updateBest]
  split_ifs with h
  · constructor
    · exact fun hm => Or.inl hm
    · rintro (hm | rfl) <;> [exact hm; exact h]
  · simp [List.mem_append]

theorem nodup_bestKeys_updateBest (acc : List BestEntry) (e : BestEntry)
    (h : (bestKeys acc).Nodup) : (bestKeys (updateBest acc e)).Nodup := by
  rw [bestKeys_updateBest]
  split_ifs with hmem
  · exact h
  · simp [List.nodup_append, h, hmem]

theorem bestFold_go_keys (bs : List Block) (acc : List BestEntry) (k : String) :
    k ∈ bestKeys (bs.foldl (fun a b => updateBest a (b.top_number, blockScore b, b)) acc) ↔
      k ∈ bestKeys acc ∨ k ∈ bs.map Block.top_number := by
  induction bs generalizing acc with
  | nil => simp
  | cons b bs ih =>
    simp only [List.foldl_cons, List.map_cons, List.mem_cons]
    rw [ih, mem_bestKeys_updateBest]
    tauto

theorem bestFold_go_nodup (bs : List Block) (acc : List BestEntry)
    (h : (bestKeys acc).Nodup) :
    (bestKeys (bs.foldl (fun a b => updateBest a (b.top_number, blockScore b, b)) acc)).Nodup := by
  induction bs generalizing acc with
  | nil => exact h
  | cons b bs ih => exact ih _ (nodup_bestKeys_updateBest _ _ h)

theorem mem_bestKeys_bestFold (blocks : List Block) (k : String) :
    k ∈ bestKeys (bestFold blocks) ↔ k ∈ blocks.map Block.top_number := by
  rw [bestFold, bestFold_go_keys]
  simp [bestKeys]

theorem nodup_bestKeys_bestFold (blocks : List Block) :
    (bestKeys (bestFold blocks)).Nodup := by
  exact bestFold_go_nodup blocks [] (by simp [bestKeys])

theorem mkParsedTOP_top_number (et : String → Option String) (ti : String → List String)
    (md : Option String) (sf : String) (ag : List (String × String)) (k : String) (b : Block) :
    (mkParsedTOP et ti md sf ag k b).top_number = k := rfl

theorem parse_tops_map_perm (et : String → Option String) (ti : String → List String)
    (md : Option String) (sf : String) (blocks : List Block) :
    ((parse_tops_from_blocks et ti md sf blocks).map ParsedTOP.top_number).Perm
      (bestKeys (bestFold (rewrittenBlocks blocks))) := by
  unfold parse_tops_from_blocks
  refine ((List.perm_insertionSort _ _).map _).trans ?_
  rw [List.map_map]
  exact List.Perm.refl _

theorem mem_updateBest (acc : List BestEntry) (e x : BestEntry)
    (hnd : (bestKeys acc).Nodup) (hx : x ∈ updateBest acc e) :
    (x ∈ acc ∧ (x.1 = e.1 → scoreGt e.2.1 x.2.1 = false)) ∨
      (x = e ∧ ∀ y ∈ acc, y.1 = e.1 → scoreGt e.2.1 y.2.1 = true) := by
  rcases e with ⟨k2, s2, b2⟩
  induction acc with
  | nil =>
    simp only [updateBest, List.mem_singleton] at hx
    subst hx
    exact Or.inr ⟨rfl, by simp⟩
  | cons hd rest ih =>
    rcases hd with ⟨k, s, b⟩
    have hndr : (bestKeys rest).Nodup := (List.nodup_cons.mp hnd).2
    have hknotin : k ∉ bestKeys rest := (List.nodup_cons.mp hnd).1
    by_cases hk : k = k2
    · subst hk
      by_cases hgt : scoreGt s2 s = true
      · rw [updateBest, if_pos rfl, if_pos hgt] at hx
        rcases List.mem_cons.mp hx with rfl | hx
        · refine Or.inr ⟨rfl, ?_⟩
          intro y hy hyk
          rcases List.mem_cons.mp hy with rfl | hy
          · exact hgt
          · have hyk2 : y.1 = k := hyk
            exact absurd (hyk2 ▸ List.mem_map_of_mem (fun e => e.1) hy) hknotin
        · refine Or.inl ⟨List.mem_cons_of_mem _ hx, fun hxk => ?_⟩
          have hxk2 : x.1 = k := hxk
          exact absurd (hxk2 ▸ List.mem_map_of_mem (fun e => e.1) hx) hknotin
      · rw [updateBest, if_pos rfl, if_neg hgt] at hx
        rcases List.mem_cons.mp hx with rfl | hx
        · exact Or.inl ⟨List.mem_cons_self _ _, fun _ => Bool.of_not_eq_true hgt⟩
        · refine Or.inl ⟨List.mem_cons_of_mem _ hx, fun hxk => ?_⟩
          have hxk2 : x.1 = k := hxk
          exact absurd (hxk2 ▸ List.mem_map_of_mem (fun e => e.1) hx) hknotin
    · rw [updateBest, if_neg hk] at hx
      rcases List.mem_cons.mp hx with rfl | hx
      · exact Or.inl ⟨List.mem_cons_self _ _, fun hxk => absurd hxk hk⟩
      · rcases ih hndr hx with ⟨hmem, himp⟩ | ⟨rfl, hall⟩
        · exact Or.inl ⟨List.mem_cons_of_mem _ hmem, himp⟩
        · refine Or.inr ⟨rfl, ?_⟩
          intro y hy hyk
          rcases List.mem_cons.mp hy with rfl | hy
          · exact absurd hyk hk
          · exact hall y hy hyk

/-- Invariant of the deduplication loop: after processing `done`, the keys
of `best` are exactly the numbers seen, without duplicates, and each entry
holds the block with the lexicographically maximal score among the processed
blocks carrying its key (first such block on ties). -/
def BestInv (done : List Block) (acc : List BestEntry) : Prop :=
  (bestKeys acc).Nodup ∧
  (∀ b2 ∈ done, b2.top_number ∈ bestKeys acc) ∧
  (∀ e ∈ acc, e.2.1 = blockScore e.2.2 ∧ e.2.2.top_number = e.1 ∧ e.2.2 ∈ done ∧
    ∀ b2 ∈ done, b2.top_number = e.1 → scoreGt (blockScore b2) e.2.1 = false)

theorem bestInv_step (done : List Block) (acc : List BestEntry) (b0 : Block)
    (h : BestInv done acc) :
    BestInv (done ++ [b0]) (updateBest acc (b0.top_number, blockScore b0, b0)) := by
  obtain ⟨hnd, hcov, hent⟩ := h
  refine ⟨nodup_bestKeys_updateBest _ _ hnd, ?_, ?_⟩
  · intro b2 hb2
    rw [mem_bestKeys_updateBest]
    rcases List.mem_append.mp hb2 with hb2 | hb2
    · exact Or.inl (hcov b2 hb2)
    · rw [List.mem_singleton] at hb2
      subst hb2
      exact Or.inr rfl
  · intro e he
    rcases mem_updateBest acc _ e hnd he with ⟨hmem, himp⟩ | ⟨rfl, hall⟩
    · obtain ⟨hsc, hkey, hmemdone, hmax⟩ := hent e hmem
      refine ⟨hsc, hkey, List.mem_append_left _ hmemdone, ?_⟩
      intro b2 hb2 hb2k
      rcases List.mem_append.mp hb2 with hb2 | hb2
      · exact hmax b2 hb2 hb2k
      · rw [List.mem_singleton] at hb2
        subst hb2
        exact himp hb2k.symm
    · refine ⟨rfl, rfl, List.mem_append_right _ (List.mem_singleton_self _), ?_⟩
      intro b2 hb2 hb2k
      rcases List.mem_append.mp hb2 with hb2 | hb2
      · have hkmem : b2.top_number ∈ bestKeys acc := hcov b2 hb2
        obtain ⟨y, hy, hy1⟩ := List.mem_map.mp hkmem
        have hgty : scoreGt (blockScore b0) y.2.1 = true := hall y hy (by rw [hy1, hb2k])
        obtain ⟨-, -, -, hmax⟩ := hent y hy
        have hnogty : scoreGt (blockScore b2) y.2.1 = false := hmax b2 hb2 hy1.symm
        by_contra hcon
        rw [Bool.not_eq_false] at hcon
        exact absurd (scoreGt_trans hcon hgty) (by rw [hnogty]; simp)
      · rw [List.mem_singleton] at hb2
        subst hb2
        exact scoreGt_irrefl _

theorem bestInv_fold (bs : List Block) (done : List Block) (acc : List BestEntry)
    (h : BestInv done acc) :
    BestInv (done ++ bs)
      (bs.foldl (fun a b => updateBest a (b.top_number, blockScore b, b)) acc) := by
  induction bs generalizing done acc with
  | nil => simpa using h
  | cons b bs ih =>
    have hstep := ih (done ++ [b]) _ (bestInv_step done acc b h)
    simpa [List.append_assoc] using hstep

theorem bestFold_invariant (blocks : List Block) : BestInv blocks (bestFold blocks) := by
  have h0 : BestInv [] [] := ⟨by simp [bestKeys], by simp, by simp⟩
  simpa using bestInv_fold blocks [] [] h0

theorem lookup_updateBest (acc : List BestEntry) (e : BestEntry) :
    (updateBest acc e).lookup e.1 =
      some (match acc.lookup e.1 with
            | some (s, bc) => if scoreGt e.2.1 s then (e.2.1, e.2.2) else (s, bc)
            | none => (e.2.1, e.2.2)) := by
  rcases e with ⟨k2, s2, b2⟩
  induction acc with
  | nil => simp [updateBest, List.lookup]
  | cons hd rest ih =>
    rcases hd with ⟨k, s, b⟩
    by_cases hk : k = k2
    · subst hk
      by_cases hgt : scoreGt s2 s = true <;>
        simp [updateBest, List.lookup, hgt]
    · have hbeq : (k2 == k) = false := by simp [Ne.symm hk]
      simp only [updateBest, if_neg hk, List.lookup, hbeq]
      exact ih

theorem agendaTitles_good (et : String → Option String) (blocks : List Block) :
    ∀ p ∈ agendaTitles et blocks, p.2 ≠ "" ∧ is_garbage_title (some p.2) = false := by
  suffices h : ∀ (bs : List Block) (acc : List (String × String)),
      (∀ p ∈ acc, p.2 ≠ "" ∧ is_garbage_title (some p.2) = false) →
      ∀ p ∈ bs.foldl
        (fun m b =>
          if classify_block_kind b.text b.len = BlockKind.agenda_or_header then
            match et b.text with
            | some t =>
              if t ≠ "" && !is_garbage_title (some t) then setdefault m b.top_number t else m
            | none => m
          else m)
        acc, p.2 ≠ "" ∧ is_garbage_title (some p.2) = false by
    exact h blocks [] (by simp)
  intro bs
  induction bs with
  | nil => exact fun acc hacc => hacc
  | cons b bs ih =>
    intro acc hacc
    simp only [List.foldl_cons]
    apply ih
    split
    · split
      · rename_i t heq
        split
        · rename_i hgood
          simp only [Bool.and_eq_true, Bool.not_eq_true', decide_eq_true_eq] at hgood
          intro p hp
          unfold setdefault at hp
          split at hp
          · exact hacc p hp
          · rcases List.mem_append.mp hp with hp | hp
            · exact hacc p hp
            · rw [List.mem_singleton] at hp
              subst hp
              exact ⟨hgood.1, hgood.2⟩
        · exact hacc
      · exact hacc
    · exact hacc

theorem resolveTitle_good (ag : List (String × String))
    (hag : ∀ p ∈ ag, p.2 ≠ "" ∧ is_garbage_title (some p.2) = false)
    (k : String) (t0 : Option String) :
    resolveTitle ag k t0 = none ∨ is_garbage_title (resolveTitle ag k t0) = false := by
  have hlook : ∀ v, ag.lookup k = some v → v ≠ "" ∧ is_garbage_title (some v) = false := by
    intro v hv
    refine hag (k, v) ?_
    obtain ⟨l1, l2, rfl, -⟩ := List.lookup_eq_some_iff.mp hv
    exact List.mem_append_right _ (List.mem_cons_self _ _)
  unfold resolveTitle
  by_cases h1 : is_garbage_title t0 = true
  · rcases hv : ag.lookup k with _ | v
    · simp only [h1, if_pos rfl, hv, pyOr]
      simp [h1]
    · obtain ⟨hne, hng⟩ := hlook v hv
      simp only [h1, if_pos rfl, hv, pyOr, if_neg hne]
      simp [hng]
  · rw [Bool.not_eq_true] at h1
    simp [h1]

theorem baseNearby_majors (tops : List String) (i base : Nat)
    (h : baseNearby tops i base = true) : (majorsOf tops).contains base = true := by
  unfold baseNearby at h
  simp only [Bool.or_eq_true, Bool.and_eq_true, decide_eq_true_eq] at h
  have hmem : ∀ j : Nat, leadingNat (tops.getD j "") = some base →
      base ∈ majorsOf tops := by
    intro j hj
    by_cases hlt : j < tops.length
    · refine List.mem_filterMap.mpr ⟨tops.getD j "", ?_, hj⟩
      rw [List.getD_eq_getElem tops "" hlt]
      exact List.getElem_mem hlt
    · rw [List.getD_eq_default _ _ (Nat.le_of_not_lt hlt)] at hj
      exact absurd hj (by simp [leadingNat])
  rcases h with ⟨-, hlead⟩ | ⟨-, hlead⟩ <;>
    exact List.elem_eq_true_of_mem (hmem _ hlead)

/-! ## Claim theorems -/

/-- C3: `infer_approved` returns the explicit decision verbatim whenever it
is present (for any tallies); else absent whenever the block mentions a
special quorum; else `yes > no` whenever both tallies are present (strict,
so equal tallies yield not-approved); else absent.  In particular yes=5,
no=1 without explicit language yields approved, yes=1, no=1 yields
not-approved, and quorum language with tallies present yields absent. -/
theorem infer_approved_spec :
    (∀ (v : Bool) (yes no : Option Nat) (block : String),
        infer_approved (some v) yes no block = some v) ∧
    (∀ (yes no : Option Nat) (block : String),
        mentions_special_quorum block = true →
        infer_approved none yes no block = none) ∧
    (∀ (y n : Nat) (block : String),
        mentions_special_quorum block = false →
        infer_approved none (some y) (some n) block = some (decide (y > n))) ∧
    (∀ (yes : Option Nat) (block : String),
        mentions_special_quorum block = false →
        infer_approved none yes none block = none) ∧
    (∀ (no : Option Nat) (block : String),
        mentions_special_quorum block = false →
        infer_approved none none no block = none) ∧
    infer_approved none (some 5) (some 1) "" = some true ∧
    infer_approved none (some 1) (some 1) "" = some false ∧
    infer_approved (detect_explicit_decision "2/3 Mehrheit erforderlich") (some 5) (some 1)
      "2/3 Mehrheit erforderlich" = none := by
  refine ⟨fun v yes no block => rfl, ?_, ?_, ?_, ?_, ?_, ?_, ?_⟩
  · intro yes no block h
    simp [infer_approved, h]
  · intro y n block h
    simp [infer_approved, h]
  · intro yes block h
    cases yes <;> simp [infer_approved, h]
  · intro no block h
    simp [infer_approved, h]
  · decide
  · decide
  · decide

/-- C3 witness: a quorum-free block with tallies 5 over 1 is approved. -/
theorem infer_approved_spec_witness :
    mentions_special_quorum "text" = false ∧
    infer_approved none (some 5) (some 1) "text" = some true :=
  ⟨by decide, infer_approved_spec.2.2.1 5 1 "text" (by decide)⟩

/-- C4: the vote parser tries the labeled form first (the labeled example
yields (10, 1, 2)); an unlabeled `num/num/num` triple is accepted only from
a line containing a slash and a vote-context keyword (the guarded example
yields (5, 2, 1)); and a block with no labeled match and no guarded line
yields all-absent. -/
theorem parse_votes_strict_spec :
    parse_votes_strict "Ja-Stimmen: 10 Nein-Stimmen: 1 Enthaltungen: 2" =
      (some 10, some 1, some 2) ∧
    parse_votes_strict "Stimmen 5/2/1" = (some 5, some 2, some 1) ∧
    (∀ (block : String) (t : Option Nat × Option Nat × Option Nat),
        votesLabeled block.data = some t → parse_votes_strict block = t) ∧
    (∀ block : String,
        votesLabeled block.data = none →
        (∀ ln ∈ splitlines block.data,
          (ln.any (fun c => c = '/') && hasVoteKw none ln) = false) →
        parse_votes_strict block = (none, none, none)) := by
  refine ⟨by decide, by decide, ?_, ?_⟩
  · intro block t h
    simp [parse_votes_strict, h]
  · intro block h hg
    simp only [parse_votes_strict, h]
    exact votesUnlabeled_of_no_guard _ hg

/-- C4 witness: a block with vote words but no labels, no slash and no
triple parses to all-absent. -/
theorem parse_votes_strict_spec_witness :
    parse_votes_strict "ohne stimmen" = (none, none, none) :=
  parse_votes_strict_spec.2.2.2 "ohne stimmen" (by decide) (by decide)

/-- C5 counterexample: `normalize_text` is not idempotent.  The
de-hyphenation regex consumes the trailing word character of each match, so
overlapping hyphenated wraps (`a-\nb-\nc`) are merged one per pass:
the first pass yields `ab-\nc`, a second pass yields `abc`. -/
theorem normalize_text_not_idempotent :
    ¬(normalize_text (normalize_text "a-\nb-\nc") = normalize_text "a-\nb-\nc") := by
  decide

/-- C5 amended: `normalize_text` de-hyphenates line-wrapped words
(`Ver-\nwalter` becomes `Verwalter`), and a second application is the
identity on this example; idempotence does not hold for every input. -/
theorem normalize_text_dehyphenates :
    normalize_text "Ver-\nwalter" = "Verwalter" ∧
    normalize_text (normalize_text "Ver-\nwalter") = normalize_text "Ver-\nwalter" := by
  decide

/-- C8 counterexample: the filename day field is matched by `[0-3]\d`, which
accepts 00–39, not only 01–31: the filename `39012024.pdf` yields the date
`2024-01-39`, whose day 39 is outside 01–31. -/
theorem extract_meeting_date_day39 :
    extract_meeting_date "no body date" "39012024.pdf" = some "2024-01-39" := by
  decide

/-- C8 amended: `extract_meeting_date` tries the body pattern
`vom|am DD.MM.YYYY` first and formats it as `YYYY-MM-DD`; otherwise it
matches a filename pattern `DDMMYYYY` in which the day is two digits with
first digit 0–3 (so 00–39, not 01–31), the month is 01–12 and the year is
20xx; otherwise it returns absent.  Body text `vom 12.12.2024` yields
`2024-12-12`, and with no body date a filename containing `12022024` yields
`2024-02-12`; every filename-derived date has day at most 39 and month
between 01 and 12. -/
theorem extract_meeting_date_spec :
    extract_meeting_date "Protokoll vom 12.12.2024" "foo.pdf" = some "2024-12-12" ∧
    extract_meeting_date "no date" "12022024.pdf" = some "2024-02-12" ∧
    (∀ full_text filename d mo y,
        bodyDate none full_text.data = some (d, mo, y) →
        extract_meeting_date full_text filename =
          some (pad4 y ++ "-" ++ pad2 mo ++ "-" ++ pad2 d)) ∧
    (∀ full_text filename : String,
        bodyDate none full_text.data = none →
        extract_meeting_date full_text filename ≠ none →
        ∃ d mo y, fnameDate none filename.data = some (d, mo, y) ∧
          d ≤ 39 ∧ 1 ≤ mo ∧ mo ≤ 12 ∧ 2000 ≤ y ∧ y ≤ 2099 ∧
          extract_meeting_date full_text filename =
            some (pad4 y ++ "-" ++ pad2 mo ++ "-" ++ pad2 d)) ∧
    (∀ full_text filename : String,
        bodyDate none full_text.data = none →
        fnameDate none filename.data = none →
        extract_meeting_date full_text filename = none) := by
  refine ⟨by decide, by decide, ?_, ?_, ?_⟩
  · intro full_text filename d mo y h
    simp [extract_meeting_date, h]
  · intro full_text filename hb hne
    rcases hf : fnameDate none filename.data with _ | ⟨⟨d, mo, y⟩⟩
    · exact absurd (by simp [extract_meeting_date, hb, hf]) hne
    · obtain ⟨h1, h2, h3, h4, h5⟩ := fnameDate_bounds none filename.data d mo y hf
      exact ⟨d, mo, y, rfl, h1, h2, h3, h4, h5, by simp [extract_meeting_date, hb, hf]⟩
  · intro full_text filename hb hf
    simp [extract_meeting_date, hb, hf]

/-- C8 witness: the filename pattern path at the concrete example filename,
with bounds instantiated. -/
theorem extract_meeting_date_spec_witness :
    ∃ d mo y, fnameDate none "12022024.pdf".data = some (d, mo, y) ∧
      d ≤ 39 ∧ 1 ≤ mo ∧ mo ≤ 12 ∧ 2000 ≤ y ∧ y ≤ 2099 ∧
      extract_meeting_date "no date" "12022024.pdf" =
        some (pad4 y ++ "-" ++ pad2 mo ++ "-" ++ pad2 d) :=
  extract_meeting_date_spec.2.2.2.1 "no date" "12022024.pdf" (by decide) (by decide)

/-- C7: whenever the OCR extractor is invoked (it is configured and the
post-layout yield is below threshold), an OCR failure is swallowed: ingest
returns the best non-OCR pages with `used_ocr = false`; and an OCR success
replaces them only when its yield strictly exceeds the current yield times
1.5 and strictly exceeds the absolute floor 200. -/
theorem ingest_ocr_spec :
    ∀ (sp : String) (primary : List PageText) (layoutRes : Option (List PageText))
      (minAvg layoutGain : ℚ),
      (∀ msg : String,
        avgChars (afterLayout primary layoutRes minAvg layoutGain).1 < minAvg →
        ingest sp primary layoutRes (some (Except.error msg)) minAvg layoutGain (3/2) 200 =
          { source_path := sp,
            pages := (afterLayout primary layoutRes minAvg layoutGain).1,
            used_layout := (afterLayout primary layoutRes minAvg layoutGain).2,
            used_ocr := false,
            avg_chars_per_page :=
              avgChars (afterLayout primary layoutRes minAvg layoutGain).1 }) ∧
      (∀ po : List PageText,
        avgChars (afterLayout primary layoutRes minAvg layoutGain).1 < minAvg →
        ingest sp primary layoutRes (some (Except.ok po)) minAvg layoutGain (3/2) 200 =
          if avgChars po > avgChars (afterLayout primary layoutRes minAvg layoutGain).1 * (3/2)
              ∧ avgChars po > 200 then
            { source_path := sp, pages := po,
              used_layout := (afterLayout primary layoutRes minAvg layoutGain).2,
              used_ocr := true, avg_chars_per_page := avgChars po }
          else
            { source_path := sp,
              pages := (afterLayout primary layoutRes minAvg layoutGain).1,
              used_layout := (afterLayout primary layoutRes minAvg layoutGain).2,
              used_ocr := false,
              avg_chars_per_page :=
                avgChars (afterLayout primary layoutRes minAvg layoutGain).1 }) := by
  intro sp primary layoutRes minAvg layoutGain
  constructor
  · intro msg hlow
    simp [ingest, hlow]
  · intro po hlow
    by_cases hgain : avgChars po > avgChars (afterLayout primary layoutRes minAvg layoutGain).1 * (3/2)
        ∧ avgChars po > 200
    · simp [ingest, hlow, hgain]
    · simp [ingest, hlow, hgain]

/-- C1: the output of the block-level parse contains exactly one record per
distinct post-repair item number — no two records share a `top_number`, and
a number appears on a record exactly when some (repaired) block carries it. -/
theorem parse_tops_unique_per_number (et : String → Option String)
    (ti : String → List String) (md : Option String) (sf : String) (blocks : List Block) :
    ((parse_tops_from_blocks et ti md sf blocks).map ParsedTOP.top_number).Nodup ∧
    (∀ num : String,
      num ∈ (parse_tops_from_blocks et ti md sf blocks).map ParsedTOP.top_number ↔
        num ∈ (rewrittenBlocks blocks).map Block.top_number) := by
  have hperm := parse_tops_map_perm et ti md sf blocks
  constructor
  · exact hperm.nodup_iff.mpr (nodup_bestKeys_bestFold _)
  · intro num
    rw [hperm.mem_iff, mem_bestKeys_bestFold]

/-- C2: the deduplication loop retains, per item number, a block whose score
tuple `(kind = detail, both tallies, explicit decision, length)` is
lexicographically maximal among all blocks with that number (no other block
scores strictly greater); in particular a detail block with both tallies
always beats an agenda/header block for the same number, in either order and
regardless of length. -/
theorem dedup_keeps_max_score :
    (∀ (blocks : List Block) (k : String) (s : Score) (b : Block),
        (k, s, b) ∈ bestFold blocks →
        s = blockScore b ∧ b.top_number = k ∧ b ∈ blocks ∧
          ∀ b2 ∈ blocks, b2.top_number = k → scoreGt (blockScore b2) s = false) ∧
    (∀ b1 b2 : Block, b1.top_number = b2.top_number →
        classify_block_kind b1.text b1.len = BlockKind.detail →
        classify_block_kind b2.text b2.len = BlockKind.agenda_or_header →
        bestFold [b1, b2] = [(b1.top_number, blockScore b1, b1)] ∧
        bestFold [b2, b1] = [(b2.top_number, blockScore b1, b1)]) := by
  constructor
  · intro blocks k s b hmem
    obtain ⟨-, -, hent⟩ := bestFold_invariant blocks
    obtain ⟨hsc, hkey, -, hmax⟩ := hent (k, s, b) hmem
    exact ⟨hsc, hkey, (hent (k, s, b) hmem).2.2.1, hmax⟩
  · intro b1 b2 hk hc1 hc2
    have h1 : (blockScore b1).1 = 1 := by simp [blockScore, hc1]
    have h2 : (blockScore b2).1 = 0 := by simp [blockScore, hc2]
    have hgtF : scoreGt (blockScore b2) (blockScore b1) = false := by
      rw [← Bool.not_eq_true, scoreGt_iff]
      omega
    have hgtT : scoreGt (blockScore b1) (blockScore b2) = true := by
      rw [scoreGt_iff]
      omega
    constructor
    · show updateBest (updateBest [] (b1.top_number, blockScore b1, b1))
        (b2.top_number, blockScore b2, b2) = _
      rw [show updateBest [] (b1.top_number, blockScore b1, b1) =
        [(b1.top_number, blockScore b1, b1)] from rfl]
      rw [updateBest, if_pos hk, if_neg (by rw [hgtF]; simp)]
    · show updateBest (updateBest [] (b2.top_number, blockScore b2, b2))
        (b1.top_number, blockScore b1, b1) = _
      rw [show updateBest [] (b2.top_number, blockScore b2, b2) =
        [(b2.top_number, blockScore b2, b2)] from rfl]
      rw [updateBest, if_pos hk.symm, if_pos hgtT]

/-- C2 witness: a short detail block with tallies 5 over 1 wins against a
longer tally-free agenda block with the same item number, in both orders. -/
theorem dedup_keeps_max_score_witness :
    bestFold [⟨"1", "Ja-Stimmen: 5 Nein-Stimmen: 1 Enthaltungen: 0", 45, none, none⟩,
              ⟨"1", "Tagesordnung lange Beschreibung ohne Zahlen", 400, none, none⟩] =
      [("1", (1, 1, 0, 45),
        ⟨"1", "Ja-Stimmen: 5 Nein-Stimmen: 1 Enthaltungen: 0", 45, none, none⟩)] ∧
    bestFold [⟨"1", "Tagesordnung lange Beschreibung ohne Zahlen", 400, none, none⟩,
              ⟨"1", "Ja-Stimmen: 5 Nein-Stimmen: 1 Enthaltungen: 0", 45, none, none⟩] =
      [("1", (1, 1, 0, 45),
        ⟨"1", "Ja-Stimmen: 5 Nein-Stimmen: 1 Enthaltungen: 0", 45, none, none⟩)] := by
  have h := dedup_keeps_max_score.2
    ⟨"1", "Ja-Stimmen: 5 Nein-Stimmen: 1 Enthaltungen: 0", 45, none, none⟩
    ⟨"1", "Tagesordnung lange Beschreibung ohne Zahlen", 400, none, none⟩
    rfl (by decide) (by decide)
  exact ⟨h.1.trans (by decide), h.2.trans (by decide)⟩

/-- C10: a later block with the same item number replaces the current best
exactly when its score tuple is strictly greater; on exact ties the earlier
block is retained. -/
theorem dedup_later_replaces_only_if_greater :
    ∀ (blocks : List Block) (b : Block) (s : Score) (bcur : Block),
      (bestFold blocks).lookup b.top_number = some (s, bcur) →
      (bestFold (blocks ++ [b])).lookup b.top_number =
        some (if scoreGt (blockScore b) s then (blockScore b, b) else (s, bcur)) := by
  intro blocks b s bcur h
  have hfold : bestFold (blocks ++ [b]) =
      updateBest (bestFold blocks) (b.top_number, blockScore b, b) := by
    simp [bestFold, List.foldl_append]
  rw [hfold, lookup_updateBest (bestFold blocks) (b.top_number, blockScore b, b)]
  simp only [h]

/-- C10 witness: two blocks with number `1` and identical score tuples; the
earlier block is retained. -/
theorem dedup_later_replaces_only_if_greater_witness :
    (bestFold [⟨"1", "xx", 5, none, none⟩, ⟨"1", "yy", 5, none, none⟩]).lookup "1" =
      some ((0, 0, 0, 5), ⟨"1", "xx", 5, none, none⟩) := by
  have h := dedup_later_replaces_only_if_greater [⟨"1", "xx", 5, none, none⟩]
    ⟨"1", "yy", 5, none, none⟩ (0, 0, 0, 5) ⟨"1", "xx", 5, none, none⟩ (by decide)
  exact h.trans (by decide)

/-- C6: `repair_run_together_subtops` maps an item number `t` to `base.sub`
(base all digits but the last, sub the last digit) exactly when `t` is 2–3
bare digits of value at least 20, `base.sub` is not already among the item
numbers, `base` is the leading-digit value of an item number at index
distance one, and `t` is at least 2 greater than the largest other
leading-digit value — all conditions evaluated over the original, unmodified
number list.  For blocks numbered 2, 21, 3 the map is `21 → 2.1`, and `21`
does not appear among the final output item numbers. -/
theorem repair_run_together_spec :
    (∀ (tops : List String) (t c : String),
        (t, c) ∈ repair_run_together_subtops tops ↔
        ∃ i < tops.length, tops.getD i "" = t ∧
          isBare23 t.data = true ∧ 20 ≤ digitsToNat t.data ∧
          tops.contains (candidateOf t.data) = false ∧
          baseNearby tops i (digitsToNat t.data.dropLast) = true ∧
          (∃ mx, maxOther (majorsOf tops) (digitsToNat t.data) = some mx ∧
            mx + 2 ≤ digitsToNat t.data) ∧
          c = candidateOf t.data) ∧
    repair_run_together_subtops ["2", "21", "3"] = [("21", "2.1")] ∧
    (∀ (et : String → Option String) (ti : String → List String)
        (md : Option String) (sf : String) (b1 b2 b3 : Block),
        b1.top_number = "2" → b2.top_number = "21" → b3.top_number = "3" →
        "21" ∉ (parse_tops_from_blocks et ti md sf [b1, b2, b3]).map ParsedTOP.top_number) := by
  refine ⟨?_, by decide, ?_⟩
  · intro tops t c
    constructor
    · intro h
      unfold repair_run_together_subtops at h
      rw [List.mem_filterMap] at h
      obtain ⟨i, hi, hf⟩ := h
      rw [List.mem_range] at hi
      split at hf
      · rename_i hq
        rw [Option.some.injEq, Prod.mk.injEq] at hf
        obtain ⟨rfl, rfl⟩ := hf
        unfold repairQualifies at hq
        simp only [Bool.and_eq_true, Bool.not_eq_true', decide_eq_true_eq] at hq
        obtain ⟨⟨⟨⟨⟨hbare, hn⟩, hcand⟩, -⟩, hnear⟩, hmx⟩ := hq
        refine ⟨i, hi, rfl, hbare, hn, hcand, hnear, ?_, rfl⟩
        rcases hmxv : maxOther (majorsOf tops) (digitsToNat (tops.getD i "").data) with _ | mx
        · rw [hmxv] at hmx
          exact absurd hmx (by simp)
        · rw [hmxv] at hmx
          exact ⟨mx, rfl, by simpa using hmx⟩
      · exact absurd hf (by simp)
    · rintro ⟨i, hi, ht, hbare, hn, hcand, hnear, ⟨mx, hmx, hge⟩, hc⟩
      unfold repair_run_together_subtops
      rw [List.mem_filterMap]
      refine ⟨i, List.mem_range.mpr hi, ?_⟩
      have hq : repairQualifies tops i = true := by
        unfold repairQualifies
        rw [ht]
        simp only [Bool.and_eq_true, Bool.not_eq_true', decide_eq_true_eq]
        refine ⟨⟨⟨⟨⟨hbare, hn⟩, hcand⟩,
          baseNearby_majors tops i (digitsToNat t.data.dropLast) hnear⟩, hnear⟩, ?_⟩
        rw [hmx]
        simpa using hge
      rw [if_pos hq, ht, hc]
  · intro et ti md sf b1 b2 b3 h1 h2 h3 hmem
    have hperm := parse_tops_map_perm et ti md sf [b1, b2, b3]
    rw [hperm.mem_iff, mem_bestKeys_bestFold] at hmem
    have hkey : (rewrittenBlocks [b1, b2, b3]).map Block.top_number = ["2", "2.1", "3"] := by
      simp only [rewrittenBlocks, List.map_cons, List.map_nil, h1, h2, h3]
      decide
    rw [hkey] at hmem
    exact absurd hmem (by decide)

/-- C6 witness: the repaired pipeline output for three arbitrary-text blocks
numbered 2, 21, 3 never lists item number 21. -/
theorem repair_run_together_spec_witness :
    "21" ∉ (parse_tops_from_blocks (fun _ => none) (fun _ => []) none "f"
      [⟨"2", "", 0, none, none⟩, ⟨"21", "", 0, none, none⟩,
       ⟨"3", "", 0, none, none⟩]).map ParsedTOP.top_number :=
  repair_run_together_spec.2.2 (fun _ => none) (fun _ => []) none "f"
    ⟨"2", "", 0, none, none⟩ ⟨"21", "", 0, none, none⟩ ⟨"3", "", 0, none, none⟩
    rfl rfl rfl

/-- C9: an output record's title is either absent or a non-garbage string:
when the winning block's extracted title is garbage the recorded agenda
title (always non-garbage by construction) is substituted, and when that is
unavailable the title is absent — a garbage string is never emitted, for any
title extractor. -/
theorem titles_never_garbage (et : String → Option String) (ti : String → List String)
    (md : Option String) (sf : String) (blocks : List Block) :
    ∀ r ∈ parse_tops_from_blocks et ti md sf blocks,
      r.top_title = none ∨ is_garbage_title r.top_title = false := by
  intro r hr
  unfold parse_tops_from_blocks at hr
  rw [(List.perm_insertionSort _ _).mem_iff] at hr
  obtain ⟨e, he, rfl⟩ := List.mem_map.mp hr
  exact resolveTitle_good _ (agendaTitles_good et (rewrittenBlocks blocks)) e.1 (et e.2.2.text)

/-- C9 witness: with a constant non-garbage extracted title, the single
output record carries that title, which is not garbage. -/
theorem titles_never_garbage_witness :
    (⟨none, "f", "1", some "Wirtschaftsplan", [], none, none, none, none, none,
      none, none, 0, ""⟩ : ParsedTOP).top_title = none ∨
    is_garbage_title (⟨none, "f", "1", some "Wirtschaftsplan", [], none, none, none,
      none, none, none, none, 0, ""⟩ : ParsedTOP).top_title = false :=
  titles_never_garbage (fun _ => some "Wirtschaftsplan") (fun _ => []) none "f"
    [⟨"1", "", 0, none, none⟩]
    ⟨none, "f", "1", some "Wirtschaftsplan", [], none, none, none, none, none,
      none, none, 0, ""⟩ (by decide)

/-- C7 witness: an empty-yield primary extraction with a failing OCR engine
still ingests, keeping the primary pages and `used_ocr = false`. -/
theorem ingest_ocr_spec_witness :
    ingest "f" [⟨0, "", 0⟩] none (some (Except.error "boom")) 250 (6/5) (3/2) 200 =
      { source_path := "f", pages := [⟨0, "", 0⟩], used_layout := false,
        used_ocr := false, avg_chars_per_page := 0 } := by
  have h := (ingest_ocr_spec "f" [⟨0, "", 0⟩] none 250 (6/5)).1 "boom" (by norm_num [afterLayout, avgChars])
  rw [h]
  norm_num [afterLayout, avgChars]

end Wegtop
